import Mathlib

/-!
Verification development for the MOLECULAI canvas renderer
(public/js/simple3d.js, class Simple3DMolecule).

The class state (atoms, bonds, rotation, zoom, spinning, plus the
closure-local drag variables of setupInteraction) is embedded as the
structure ViewerState.  JS numbers are modelled as rationals where the
code performs only rational arithmetic (zoom, pointer coordinates,
scene data) and as reals where trigonometry is involved (rotation
angles, projection).  DOM/canvas side effects are modelled as data:
render returns the list of drawing commands in issue order, and
setMolecule returns, next to the updated state, a Boolean recording
whether the call raised a TypeError (reading .atoms of null).
-/

namespace Simple3D

/-- An atom record of a Molecule as served by the data source:
element symbol plus coordinates. -/
structure Atom where
  element : String
  x : ℚ
  y : ℚ
  z : ℚ
deriving DecidableEq, Repr

/-- A bond record: endpoint indices into the molecule's atom array and
the bond multiplicity.  The JS field "from" is a Lean keyword, hence
fromIdx/toIdx. -/
structure Bond where
  fromIdx : Nat
  toIdx : Nat
  order : Nat
deriving DecidableEq, Repr

/-- A molecule record: atom list and bond list. -/
structure Molecule where
  atoms : List Atom
  bonds : List Bond

/-- The per-element visibility mask; a JS object lookup
elementVisibility[e] yields undefined (none) for an absent key. -/
def VisMask : Type := String → Option Bool

/-- A scene atom as built by setMolecule: the spread of the source atom
plus originalIndex and the computed visible flag. -/
structure SceneAtom where
  element : String
  x : ℚ
  y : ℚ
  z : ℚ
  originalIndex : Nat
  visible : Bool
deriving DecidableEq, Repr

/-- The mutable state of a Simple3DMolecule instance, including the
closure-local drag variables of setupInteraction. -/
structure ViewerState where
  atoms : List SceneAtom
  bonds : List Bond
  rotationX : ℝ
  rotationY : ℝ
  zoom : ℚ
  spinning : Bool
  isDragging : Bool
  lastX : ℚ
  lastY : ℚ
  width : ℝ
  height : ℝ

/-- The constructor defaults: empty scene, rotation (0.5, 0.5), zoom 1,
not spinning, no drag in progress. -/
noncomputable def mkViewer (w h : ℝ) : ViewerState :=
  { atoms := [], bonds := [], rotationX := 0.5, rotationY := 0.5, zoom := 1,
    spinning := false, isDragging := false, lastX := 0, lastY := 0,
    width := w, height := h }

/-- The clear method: empties atoms and bonds (the canvas clearRect has
no state effect). -/
def clear (s : ViewerState) : ViewerState :=
  { s with atoms := [], bonds := [] }

/-- The truth value of the JS test elementVisibility[atom.element] !== false:
only an explicit false entry hides an element. -/
def visibleOf (vis : VisMask) (e : String) : Bool :=
  match vis e with
  | some false => false
  | _ => true

/-- The function mapped over molecule.atoms in setMolecule: spread the
atom, attach its array index as originalIndex and the visible flag. -/
def tagAtom (vis : VisMask) (p : Nat × Atom) : SceneAtom :=
  { element := p.2.element, x := p.2.x, y := p.2.y, z := p.2.z,
    originalIndex := p.1, visible := visibleOf vis p.2.element }

/-- The setMolecule method.  The molecule argument is optional because a
JS caller can pass null or nothing; in that case the method has already
run clear() when the access molecule.atoms raises a TypeError.  The
returned Boolean is true exactly when that TypeError is raised. -/
def setMolecule (s : ViewerState) (molecule : Option Molecule)
    (elementVisibility : VisMask) : ViewerState × Bool :=
  let s0 := clear s
  match molecule with
  | none => (s0, true)
  | some mol =>
    let atoms := (mol.atoms.enum.map (tagAtom elementVisibility)).filter
      (fun a => a.visible)
    let visibleIndices := atoms.map (fun a => a.originalIndex)
    let bonds := mol.bonds.filter (fun b =>
      visibleIndices.contains b.fromIdx && visibleIndices.contains b.toIdx)
    ({ s0 with atoms := atoms, bonds := bonds }, false)

/-- The input events handled by setupInteraction.  Pointer coordinates
and the wheel delta are rationals. -/
inductive Event where
  | mousedown (x y : ℚ)
  | mousemove (x y : ℚ)
  | mouseup
  | wheel (deltaY : ℚ)

/-- The event listeners installed by setupInteraction, as a step
function on the viewer state. -/
noncomputable def handleEvent (s : ViewerState) (e : Event) : ViewerState :=
  match e with
  | .mousedown x y => { s with isDragging := true, lastX := x, lastY := y }
  | .mousemove x y =>
    if s.isDragging then
      { s with
        rotationY := s.rotationY + (((x - s.lastX) * 0.01 : ℚ) : ℝ),
        rotationX := s.rotationX + (((y - s.lastY) * 0.01 : ℚ) : ℝ),
        lastX := x, lastY := y }
    else s
  | .mouseup => { s with isDragging := false }
  | .wheel deltaY =>
    let delta : ℚ := if 0 < deltaY then 0.9 else 1.1
    { s with zoom := max 0.1 (min (s.zoom * delta) 5) }

/-- The zoomIn method: multiply zoom by 1.2, clamp above at 5. -/
def zoomIn (s : ViewerState) : ViewerState :=
  { s with zoom := min (s.zoom * 1.2) 5 }

/-- The zoomOut method: multiply zoom by 0.8, clamp below at 0.1. -/
def zoomOut (s : ViewerState) : ViewerState :=
  { s with zoom := max (s.zoom * 0.8) 0.1 }

/-- The resetView method: restore the default rotation and zoom. -/
noncomputable def resetView (s : ViewerState) : ViewerState :=
  { s with rotationX := 0.5, rotationY := 0.5, zoom := 1 }

/-- One animation tick of the spin callback: at fire time it checks the
spinning flag; while spinning it adds 0.02 to rotationY and reschedules
itself (returned Boolean true), otherwise it leaves the state untouched
and does not reschedule. -/
noncomputable def spinTick (s : ViewerState) : ViewerState × Bool :=
  if s.spinning then ({ s with rotationY := s.rotationY + 0.02 }, true)
  else (s, false)

/-- The startSpin method: set the spinning flag and run the spin
callback once synchronously. -/
noncomputable def startSpin (s : ViewerState) : ViewerState × Bool :=
  spinTick { s with spinning := true }

/-- The stopSpin method: clear the spinning flag only. -/
def stopSpin (s : ViewerState) : ViewerState :=
  { s with spinning := false }

/-- The toggleSpin method. -/
noncomputable def toggleSpin (s : ViewerState) : ViewerState × Bool :=
  if s.spinning then (stopSpin s, false) else startSpin s

/-- Iterated firing of the scheduled spin tick. -/
noncomputable def iterateTicks : Nat → ViewerState → ViewerState
  | 0, s => s
  | n + 1, s => iterateTicks n (spinTick s).1

/-- The zoom-mutating operations named by the spec: a wheel event of a
given signed delta, the zoomIn button and the zoomOut button. -/
inductive ZoomEvent where
  | wheel (deltaY : ℚ)
  | zIn
  | zOut

/-- Dispatch one zoom-mutating operation to its handler. -/
noncomputable def applyZoomEvent (s : ViewerState) (e : ZoomEvent) : ViewerState :=
  match e with
  | .wheel d => handleEvent s (.wheel d)
  | .zIn => zoomIn s
  | .zOut => zoomOut s

/-- The empty visibility mask: every element visible (all lookups miss). -/
def emptyVis : VisMask := fun _ => none

/-- A concrete viewer state: fresh instance on a 300 by 150 surface. -/
noncomputable def sIdle : ViewerState := mkViewer 300 150

/-- A concrete viewer state that is currently spinning. -/
noncomputable def sSpin : ViewerState := { mkViewer 300 150 with spinning := true }

/-- C1 counterexample: setMolecule called with a null molecule raises a
TypeError (reading molecule.atoms of null), so the call does throw,
contrary to the claim's no-throw half. -/
theorem setMolecule_null_throws :
    (setMolecule sIdle none emptyVis).2 = true := rfl

/-- C1 amended: setMolecule with a null or absent molecule throws a
TypeError, but because clear() runs before the faulting access the
scene is nevertheless left empty: zero atoms and zero bonds. -/
theorem setMolecule_null_empty_scene (s : ViewerState) (vis : VisMask) :
    (setMolecule s none vis).1.atoms = [] ∧
    (setMolecule s none vis).1.bonds = [] ∧
    (setMolecule s none vis).2 = true :=
  ⟨rfl, rfl, rfl⟩

/-- C5 counterexample: a pointer-down arriving while the controller is
spinning leaves the spinning flag set even as the drag begins, so
spinning is not stopped before the drag — manual drag rotation and
automatic spin rotation are simultaneously active. -/
theorem mousedown_while_spinning_keeps_spinning :
    (handleEvent sSpin (.mousedown 3 4)).spinning = true ∧
    (handleEvent sSpin (.mousedown 3 4)).isDragging = true :=
  ⟨rfl, rfl⟩

/-- C5 amended: the mousedown handler only records the drag flag and the
last pointer position; it never touches the spinning flag (nor the
rotation or zoom), so a drag started while Spinning runs concurrently
with the automatic spin. -/
theorem mousedown_spec (s : ViewerState) (x y : ℚ) :
    (handleEvent s (.mousedown x y)).spinning = s.spinning ∧
    (handleEvent s (.mousedown x y)).isDragging = true ∧
    (handleEvent s (.mousedown x y)).rotationX = s.rotationX ∧
    (handleEvent s (.mousedown x y)).rotationY = s.rotationY ∧
    (handleEvent s (.mousedown x y)).zoom = s.zoom :=
  ⟨rfl, rfl, rfl, rfl, rfl⟩

/-- C8: while the spinning flag is set, a spin tick adds exactly 0.02 to
rotationY and reschedules itself; stopSpin clears the flag; a tick that
fires with the flag clear (checked at fire time) changes nothing and
does not reschedule; hence any number of further tick firings after the
flag is clear leave the state, in particular rotationY, unchanged. -/
theorem spinTick_spec :
    (∀ s : ViewerState, s.spinning = true →
      spinTick s = ({ s with rotationY := s.rotationY + 0.02 }, true)) ∧
    (∀ s : ViewerState, (stopSpin s).spinning = false) ∧
    (∀ s : ViewerState, s.spinning = false → spinTick s = (s, false)) ∧
    (∀ (s : ViewerState) (n : Nat), s.spinning = false → iterateTicks n s = s) := by
  refine ⟨fun s h => by simp [spinTick, h], fun s => rfl,
    fun s h => by simp [spinTick, h], fun s n h => ?_⟩
  induction n with
  | zero => rfl
  | succ n ih =>
    have hstep : spinTick s = (s, false) := by simp [spinTick, h]
    simp [iterateTicks, hstep, ih]

/-- C8 witness: on the concrete spinning state the tick advances
rotationY by 0.02 and reschedules; after stopSpin, two further tick
firings change nothing. -/
theorem spinTick_spec_witness :
    spinTick sSpin = ({ sSpin with rotationY := sSpin.rotationY + 0.02 }, true) ∧
    iterateTicks 2 (stopSpin sSpin) = stopSpin sSpin :=
  ⟨spinTick_spec.1 sSpin rfl, spinTick_spec.2.2.2 (stopSpin sSpin) 2 rfl⟩

/-- Any single zoom-mutating operation keeps the stored zoom inside
[0.1, 5] because each mutation site clamps before storing. -/
theorem applyZoomEvent_zoom_bounds (s : ViewerState)
    (h1 : (0.1 : ℚ) ≤ s.zoom) (h2 : s.zoom ≤ 5) (e : ZoomEvent) :
    (0.1 : ℚ) ≤ (applyZoomEvent s e).zoom ∧ (applyZoomEvent s e).zoom ≤ 5 := by
  cases e with
  | wheel d =>
    refine ⟨le_max_left _ _, max_le (by norm_num) (min_le_right _ _)⟩
  | zIn =>
    exact ⟨le_min (by linarith) (by norm_num), min_le_right _ _⟩
  | zOut =>
    exact ⟨le_max_right _ _, max_le (by linarith) (by norm_num)⟩

/-- C2: starting from any state whose zoom lies in [0.1, 5], any finite
sequence of wheel events (of arbitrary signed magnitude), zoomIn and
zoomOut operations leaves the stored zoom in [0.1, 5]; each operation
clamps at its own mutation site (render never touches the zoom). -/
theorem zoom_clamped_invariant (s : ViewerState)
    (h1 : (0.1 : ℚ) ≤ s.zoom) (h2 : s.zoom ≤ 5) (evs : List ZoomEvent) :
    (0.1 : ℚ) ≤ (evs.foldl applyZoomEvent s).zoom ∧
    (evs.foldl applyZoomEvent s).zoom ≤ 5 := by
  induction evs generalizing s with
  | nil => exact ⟨h1, h2⟩
  | cons e evs ih =>
    have hb := applyZoomEvent_zoom_bounds s h1 h2 e
    simpa [List.foldl_cons] using ih (applyZoomEvent s e) hb.1 hb.2

/-- C2 witness: the invariant instantiated on a concrete state and a
concrete mixed sequence of operations. -/
theorem zoom_clamped_invariant_witness :
    (0.1 : ℚ) ≤
      (([ZoomEvent.zIn, ZoomEvent.wheel 3, ZoomEvent.wheel (-2),
         ZoomEvent.zOut].foldl applyZoomEvent sIdle).zoom) ∧
    (([ZoomEvent.zIn, ZoomEvent.wheel 3, ZoomEvent.wheel (-2),
       ZoomEvent.zOut].foldl applyZoomEvent sIdle).zoom) ≤ 5 :=
  zoom_clamped_invariant sIdle (by norm_num [sIdle, mkViewer])
    (by norm_num [sIdle, mkViewer]) _

/-- The visibility test succeeds exactly when the mask does not map the
element explicitly to false. -/
theorem visibleOf_eq_true_iff (vis : VisMask) (e : String) :
    visibleOf vis e = true ↔ vis e ≠ some false := by
  cases h : vis e with
  | none => simp [visibleOf, h]
  | some b => cases b <;> simp [visibleOf, h]

/-- Membership in the atom list built by setMolecule: exactly the tagged
atoms of the molecule whose visibility test succeeds. -/
theorem mem_setMolecule_atoms {s : ViewerState} {mol : Molecule} {vis : VisMask}
    {a : SceneAtom} :
    a ∈ (setMolecule s (some mol) vis).1.atoms ↔
      ∃ i a0, mol.atoms[i]? = some a0 ∧ visibleOf vis a0.element = true ∧
        a = tagAtom vis (i, a0) := by
  simp only [setMolecule, clear, List.mem_filter, List.mem_map]
  constructor
  · rintro ⟨⟨⟨i, a0⟩, hp, rfl⟩, hv⟩
    exact ⟨i, a0, List.mk_mem_enum_iff_getElem?.mp hp, hv, rfl⟩
  · rintro ⟨i, a0, hget, hvis, rfl⟩
    exact ⟨⟨(i, a0), List.mk_mem_enum_iff_getElem?.mpr hget, rfl⟩, hvis⟩

/-- Every scene atom's originalIndex is a valid position of the source
atom array. -/
theorem originalIndex_lt_of_mem {s : ViewerState} {mol : Molecule} {vis : VisMask}
    {a : SceneAtom} (h : a ∈ (setMolecule s (some mol) vis).1.atoms) :
    a.originalIndex < mol.atoms.length := by
  obtain ⟨i, a0, hget, -, rfl⟩ := mem_setMolecule_atoms.mp h
  have := List.getElem?_eq_some.mp hget
  simpa [tagAtom] using this.1

/-- Membership in the bond list built by setMolecule: exactly the
molecule's bonds whose two endpoint indices each match the
originalIndex of some surviving scene atom. -/
theorem mem_setMolecule_bonds {s : ViewerState} {mol : Molecule} {vis : VisMask}
    {b : Bond} :
    b ∈ (setMolecule s (some mol) vis).1.bonds ↔
      b ∈ mol.bonds ∧
      (∃ a ∈ (setMolecule s (some mol) vis).1.atoms, a.originalIndex = b.fromIdx) ∧
      (∃ a ∈ (setMolecule s (some mol) vis).1.atoms, a.originalIndex = b.toIdx) := by
  simp only [setMolecule, clear, List.mem_filter, Bool.and_eq_true,
    List.contains, List.elem_iff, List.mem_map, and_assoc]

/-- C3: after a molecule load, position i of the molecule's atom array
is represented in the scene exactly when the mask does not map its
element explicitly to false (absent keys mean visible), and a bond is
in the scene exactly when it is a bond of the molecule both of whose
endpoint indices are originalIndex values of present scene atoms. -/
theorem setMolecule_scene_invariant (s : ViewerState) (mol : Molecule)
    (vis : VisMask) :
    (∀ (i : Nat) (a0 : Atom), mol.atoms[i]? = some a0 →
      ((∃ a ∈ (setMolecule s (some mol) vis).1.atoms, a.originalIndex = i) ↔
        vis a0.element ≠ some false)) ∧
    (∀ b : Bond, b ∈ (setMolecule s (some mol) vis).1.bonds ↔
      (b ∈ mol.bonds ∧
       (∃ a ∈ (setMolecule s (some mol) vis).1.atoms, a.originalIndex = b.fromIdx) ∧
       (∃ a ∈ (setMolecule s (some mol) vis).1.atoms, a.originalIndex = b.toIdx))) := by
  refine ⟨fun i a0 hget => ?_, fun b => mem_setMolecule_bonds⟩
  rw [← visibleOf_eq_true_iff]
  constructor
  · rintro ⟨a, ha, hidx⟩
    obtain ⟨i', a0', hget', hv', rfl⟩ := mem_setMolecule_atoms.mp ha
    have hi : i' = i := by simpa [tagAtom] using hidx
    subst hi
    rw [hget] at hget'
    cases hget'
    exact hv'
  · intro hvis
    refine ⟨tagAtom vis (i, a0), mem_setMolecule_atoms.mpr ⟨i, a0, hget, hvis, rfl⟩, ?_⟩
    simp [tagAtom]

/-- The water molecule from the repository's dataset. -/
def water : Molecule :=
  { atoms := [⟨"O", 0, 0, 0⟩, ⟨"H", 0.96, 0, 0⟩, ⟨"H", -0.24, 0.93, 0⟩],
    bonds := [⟨0, 1, 1⟩, ⟨0, 2, 1⟩] }

/-- A mask that explicitly hides hydrogen and says nothing else. -/
def maskHideH : VisMask := fun e => if e = "H" then some false else none

/-- C3 witness: the invariant instantiated on water with hydrogen
hidden, at the oxygen position and at the first O-H bond. -/
theorem setMolecule_scene_invariant_witness :
    ((∃ a ∈ (setMolecule sIdle (some water) maskHideH).1.atoms,
        a.originalIndex = 0) ↔ maskHideH "O" ≠ some false) ∧
    ((⟨0, 1, 1⟩ : Bond) ∈ (setMolecule sIdle (some water) maskHideH).1.bonds ↔
      ((⟨0, 1, 1⟩ : Bond) ∈ water.bonds ∧
       (∃ a ∈ (setMolecule sIdle (some water) maskHideH).1.atoms,
         a.originalIndex = (0 : Nat)) ∧
       (∃ a ∈ (setMolecule sIdle (some water) maskHideH).1.atoms,
         a.originalIndex = (1 : Nat)))) :=
  ⟨(setMolecule_scene_invariant sIdle water maskHideH).1 0 ⟨"O", 0, 0, 0⟩ rfl,
   (setMolecule_scene_invariant sIdle water maskHideH).2 ⟨0, 1, 1⟩⟩

/-- A molecule with a single atom and a bond whose to-index matches no
atom position. -/
def danglingMol : Molecule :=
  { atoms := [⟨"H", 0, 0, 0⟩], bonds := [⟨0, 5, 1⟩] }

/-- C10: a bond whose from or to index is not the array position of any
atom of the molecule is excluded from the loaded scene without any
error being raised, for every visibility mask. -/
theorem setMolecule_drops_dangling_bonds (s : ViewerState) (mol : Molecule)
    (vis : VisMask) (b : Bond) (_hb : b ∈ mol.bonds)
    (hd : mol.atoms.length ≤ b.fromIdx ∨ mol.atoms.length ≤ b.toIdx) :
    (setMolecule s (some mol) vis).2 = false ∧
    b ∉ (setMolecule s (some mol) vis).1.bonds := by
  refine ⟨rfl, fun hmem => ?_⟩
  obtain ⟨-, hfrom, hto⟩ := mem_setMolecule_bonds.mp hmem
  cases hd with
  | inl h =>
    obtain ⟨a, ha, hai⟩ := hfrom
    have := originalIndex_lt_of_mem ha
    omega
  | inr h =>
    obtain ⟨a, ha, hai⟩ := hto
    have := originalIndex_lt_of_mem ha
    omega

/-- C10 witness: the dangling bond (0,5) of the one-atom molecule is
dropped with no error even though every element is visible. -/
theorem setMolecule_drops_dangling_bonds_witness :
    (setMolecule sIdle (some danglingMol) emptyVis).2 = false ∧
    (⟨0, 5, 1⟩ : Bond) ∉ (setMolecule sIdle (some danglingMol) emptyVis).1.bonds :=
  setMolecule_drops_dangling_bonds sIdle danglingMol emptyVis ⟨0, 5, 1⟩
    (by simp [danglingMol]) (Or.inr (by simp [danglingMol]))

/-- The fixed perspective constant of project3D. -/
def perspective : ℝ := 5

/-- The perspective divide of project3D, applied to the post-rotation
depth with no guard on the divisor. -/
noncomputable def scaleFactor (z2 : ℝ) : ℝ := perspective / (perspective + z2)

/-- The project3D method: rotate about the vertical axis by rotationY,
then about the horizontal axis by rotationX, apply the perspective
divide and map into surface coordinates; the third component is the
post-rotation depth z2. -/
noncomputable def project3D (s : ViewerState) (x y z : ℝ) : ℝ × ℝ × ℝ :=
  let cosX := Real.cos s.rotationX
  let sinX := Real.sin s.rotationX
  let cosY := Real.cos s.rotationY
  let sinY := Real.sin s.rotationY
  let x1 := x * cosY - z * sinY
  let z1 := x * sinY + z * cosY
  let y1 := y * cosX - z1 * sinX
  let z2 := y * sinX + z1 * cosX
  let scale := 100 * (s.zoom : ℝ)
  (s.width / 2 + x1 * scale * scaleFactor z2,
   s.height / 2 - y1 * scale * scaleFactor z2,
   z2)

/-- A concrete viewer state in the front orientation (rotation (0,0)),
zoom 1, on a 300 by 150 surface. -/
noncomputable def sFront : ViewerState :=
  { mkViewer 300 150 with rotationX := 0, rotationY := 0 }

/-- C4: project3D computes exactly the two-rotation, perspective-divide,
center-offset formula of the spec, returns the post-rotation depth z2,
and in particular with rotation (0,0) and zoom 1 the origin point is
mapped to the surface center. -/
theorem project3D_formula :
    (∀ (s : ViewerState) (x y z : ℝ),
      project3D s x y z =
        (s.width / 2 +
          (x * Real.cos s.rotationY - z * Real.sin s.rotationY) * 100 *
            (s.zoom : ℝ) *
            (5 / (5 + (y * Real.sin s.rotationX +
              (x * Real.sin s.rotationY + z * Real.cos s.rotationY) *
                Real.cos s.rotationX))),
         s.height / 2 -
          (y * Real.cos s.rotationX -
            (x * Real.sin s.rotationY + z * Real.cos s.rotationY) *
              Real.sin s.rotationX) * 100 * (s.zoom : ℝ) *
            (5 / (5 + (y * Real.sin s.rotationX +
              (x * Real.sin s.rotationY + z * Real.cos s.rotationY) *
                Real.cos s.rotationX))),
         y * Real.sin s.rotationX +
           (x * Real.sin s.rotationY + z * Real.cos s.rotationY) *
             Real.cos s.rotationX)) ∧
    (∀ w h : ℝ,
      project3D { mkViewer w h with rotationX := 0, rotationY := 0 } 0 0 0 =
        (w / 2, h / 2, 0)) := by
  constructor
  · intro s x y z
    simp only [project3D, scaleFactor, perspective]
    refine Prod.ext ?_ (Prod.ext ?_ rfl) <;> dsimp only <;> ring
  · intro w h
    simp [project3D, scaleFactor, perspective, mkViewer]

/-- C9: the perspective divide is the unguarded formula
perspective / (perspective + z2) for every depth, the singular depth
z2 = -perspective is reachable (the point (0,0,-5) in the front
orientation has depth exactly -5, making the divisor zero), and at that
depth the code divides by zero with no clamping or special case. -/
theorem project3D_unguarded_singularity :
    (∀ z2 : ℝ, scaleFactor z2 = perspective / (perspective + z2)) ∧
    perspective + (project3D sFront 0 0 (-5)).2.2 = 0 ∧
    scaleFactor ((project3D sFront 0 0 (-5)).2.2) = perspective / 0 := by
  have hdepth : (project3D sFront 0 0 (-5)).2.2 = -5 := by
    simp [project3D, sFront, mkViewer]
  refine ⟨fun _ => rfl, ?_, ?_⟩
  · rw [hdepth]; norm_num [perspective]
  · rw [hdepth]; norm_num [scaleFactor, perspective]

/-- The named-view table of setView; a JS lookup on any other key gives
undefined, which is falsy, so the method does nothing. -/
noncomputable def views (view : String) : Option (ℝ × ℝ) :=
  if view = "front" then some (0, 0)
  else if view = "top" then some (Real.pi / 2, 0)
  else if view = "side" then some (0, Real.pi / 2)
  else if view = "iso" then some (0.5, 0.5)
  else none

/-- The setView method: replace the rotation pair when the name is in
the table, otherwise leave the whole state unchanged. -/
noncomputable def setView (s : ViewerState) (view : String) : ViewerState :=
  match views view with
  | some v => { s with rotationX := v.1, rotationY := v.2 }
  | none => s

/-- C7: setView maps front to rotation (0,0), top to (pi/2,0), side to
(0,pi/2) and iso to (0.5,0.5), never touching the zoom, and for any
name outside the table it leaves the state - in particular rotation and
zoom - unchanged. -/
theorem setView_spec (s : ViewerState) :
    ((setView s "front").rotationX = 0 ∧ (setView s "front").rotationY = 0) ∧
    ((setView s "top").rotationX = Real.pi / 2 ∧
      (setView s "top").rotationY = 0) ∧
    ((setView s "side").rotationX = 0 ∧
      (setView s "side").rotationY = Real.pi / 2) ∧
    ((setView s "iso").rotationX = 0.5 ∧ (setView s "iso").rotationY = 0.5) ∧
    (∀ v : String, (setView s v).zoom = s.zoom) ∧
    (∀ v : String, v ∉ ["front", "top", "side", "iso"] → setView s v = s) := by
  refine ⟨⟨rfl, rfl⟩, ⟨rfl, rfl⟩, ⟨rfl, rfl⟩, ⟨rfl, rfl⟩, fun v => ?_, fun v hv => ?_⟩
  · unfold setView views
    split <;> rfl
  · simp only [List.mem_cons, List.mem_singleton, not_or] at hv
    simp [setView, views, hv.1, hv.2.1, hv.2.2.1, hv.2.2.2]

/-- C7 witness: the top view on a concrete state, and a no-op on the
unknown name bogus. -/
theorem setView_spec_witness :
    ((setView sIdle "top").rotationX = Real.pi / 2 ∧
      (setView sIdle "top").rotationY = 0) ∧
    setView sIdle "bogus" = sIdle :=
  ⟨(setView_spec sIdle).2.1,
   (setView_spec sIdle).2.2.2.2.2 "bogus" (by decide)⟩

/-- A projected atom of a render pass: the scene atom spread together
with its projected position (screenX, screenY, depth). -/
structure ProjAtom where
  atom : SceneAtom
  pos : ℝ × ℝ × ℝ

/-- Step 3 of render: project every scene atom through project3D. -/
noncomputable def projectAtoms (s : ViewerState) : List ProjAtom :=
  s.atoms.map (fun a => ⟨a, project3D s (a.x : ℝ) (a.y : ℝ) (a.z : ℝ)⟩)

/-- The depth of a projected atom: the z component of its position. -/
def depth (p : ProjAtom) : ℝ := p.pos.2.2

/-- The comparator used by the render sort: ascending depth. -/
def depthLE (p q : ProjAtom) : Prop := depth p ≤ depth q

noncomputable instance : DecidableRel depthLE :=
  fun p q => inferInstanceAs (Decidable (depth p ≤ depth q))

instance : IsTotal ProjAtom depthLE := ⟨fun p q => le_total (depth p) (depth q)⟩

instance : IsTrans ProjAtom depthLE := ⟨fun _ _ _ => le_trans⟩

/-- The sorted projected atom list of a render pass; the JS
Array.prototype.sort with comparator a.pos.z - b.pos.z is a stable
ascending sort, modelled by the stable insertionSort. -/
noncomputable def sortedAtoms (s : ViewerState) : List ProjAtom :=
  (projectAtoms s).insertionSort depthLE

/-- The canvas operations of one render pass, one command per drawn
entity: the cleared background gradient, one line per drawn bond, one
sphere (shadow, gradient disc, outline and label) per drawn atom. -/
inductive DrawCmd where
  | background
  | bondLine (b : Bond) (p1 p2 : ℝ × ℝ)
  | atomSphere (pa : ProjAtom)

/-- Whether a command draws a bond line. -/
def DrawCmd.isBond : DrawCmd → Bool
  | .bondLine .. => true
  | _ => false

/-- Whether a command draws an atom sphere. -/
def DrawCmd.isAtom : DrawCmd → Bool
  | .atomSphere _ => true
  | _ => false

/-- The bond drawn by a command, if any. -/
def DrawCmd.bondOf : DrawCmd → Option Bond
  | .bondLine b _ _ => some b
  | _ => none

/-- The projected atom drawn by a command, if any. -/
def DrawCmd.atomOf : DrawCmd → Option ProjAtom
  | .atomSphere pa => some pa
  | _ => none

/-- Step 5 of render: for each scene bond, look both endpoints up in the
projected atom list by originalIndex and draw the connecting line when
both are found. -/
noncomputable def bondCmds (s : ViewerState) : List DrawCmd :=
  s.bonds.filterMap (fun b =>
    match (sortedAtoms s).find? (fun a => a.atom.originalIndex == b.fromIdx),
          (sortedAtoms s).find? (fun a => a.atom.originalIndex == b.toIdx) with
    | some fa, some ta =>
        some (.bondLine b (fa.pos.1, fa.pos.2.1) (ta.pos.1, ta.pos.2.1))
    | _, _ => none)

/-- The render method as its sequence of canvas operations: clear and
paint the background, draw every bond line, then draw every atom in
sorted order. -/
noncomputable def render (s : ViewerState) : List DrawCmd :=
  .background :: (bondCmds s ++ (sortedAtoms s).map .atomSphere)

/-- Every command produced by the bond pass is a bond line. -/
theorem bondCmds_shape {s : ViewerState} {c : DrawCmd} (h : c ∈ bondCmds s) :
    ∃ b p1 p2, c = .bondLine b p1 p2 := by
  obtain ⟨b, -, hf⟩ := List.mem_filterMap.mp h
  rcases h1 : (sortedAtoms s).find? (fun a => a.atom.originalIndex == b.fromIdx) with
    _ | fa <;>
    rcases h2 : (sortedAtoms s).find? (fun a => a.atom.originalIndex == b.toIdx) with
      _ | ta <;> rw [h1, h2] at hf <;> simp at hf
  exact ⟨b, _, _, hf.symm⟩

/-- The bond-line commands of a render pass are exactly its bond pass. -/
theorem render_filter_isBond (s : ViewerState) :
    (render s).filter DrawCmd.isBond = bondCmds s := by
  rw [render, List.filter_cons, List.filter_append]
  have h1 : (bondCmds s).filter DrawCmd.isBond = bondCmds s :=
    List.filter_eq_self.mpr (fun c hc => by
      obtain ⟨b, p1, p2, rfl⟩ := bondCmds_shape hc; rfl)
  have h2 : ((sortedAtoms s).map DrawCmd.atomSphere).filter DrawCmd.isBond = [] :=
    List.filter_eq_nil_iff.mpr (fun c hc => by
      obtain ⟨pa, -, rfl⟩ := List.mem_map.mp hc; simp [DrawCmd.isBond])
  simp [h1, h2, DrawCmd.isBond]

/-- The atom-sphere commands of a render pass are exactly the sorted
atom list. -/
theorem render_filter_isAtom (s : ViewerState) :
    (render s).filter DrawCmd.isAtom = (sortedAtoms s).map DrawCmd.atomSphere := by
  rw [render, List.filter_cons, List.filter_append]
  have h1 : (bondCmds s).filter DrawCmd.isAtom = [] :=
    List.filter_eq_nil_iff.mpr (fun c hc => by
      obtain ⟨b, p1, p2, rfl⟩ := bondCmds_shape hc; simp [DrawCmd.isAtom])
  have h2 : ((sortedAtoms s).map DrawCmd.atomSphere).filter DrawCmd.isAtom =
      (sortedAtoms s).map DrawCmd.atomSphere :=
    List.filter_eq_self.mpr (fun c hc => by
      obtain ⟨pa, -, rfl⟩ := List.mem_map.mp hc; rfl)
  simp [h1, h2, DrawCmd.isAtom]

/-- The projected atoms drawn by a render pass, in draw order, are
exactly the sorted atom list. -/
theorem render_filterMap_atomOf (s : ViewerState) :
    (render s).filterMap DrawCmd.atomOf = sortedAtoms s := by
  rw [render, List.filterMap_cons_none rfl, List.filterMap_append]
  have h1 : (bondCmds s).filterMap DrawCmd.atomOf = [] :=
    List.filterMap_eq_nil_iff.mpr (fun c hc => by
      obtain ⟨b, p1, p2, rfl⟩ := bondCmds_shape hc; rfl)
  have h2 : ((sortedAtoms s).map DrawCmd.atomSphere).filterMap DrawCmd.atomOf =
      sortedAtoms s := by
    rw [List.filterMap_map,
      show DrawCmd.atomOf ∘ DrawCmd.atomSphere = some from funext fun _ => rfl,
      List.filterMap_some]
  rw [h1, h2, List.nil_append]

/-- An endpoint lookup in the sorted projected list succeeds exactly
when the index is the originalIndex of some scene atom. -/
theorem find?_sortedAtoms_isSome (s : ViewerState) (i : Nat) :
    ((sortedAtoms s).find? (fun a => a.atom.originalIndex == i)).isSome =
    (s.atoms.map SceneAtom.originalIndex).contains i := by
  rw [Bool.eq_iff_iff, List.find?_isSome]
  rw [show ((s.atoms.map SceneAtom.originalIndex).contains i = true) ↔
      i ∈ s.atoms.map SceneAtom.originalIndex from List.elem_iff]
  constructor
  · rintro ⟨x, hx, hxi⟩
    rw [sortedAtoms] at hx
    have hxm := (List.mem_insertionSort depthLE).mp hx
    rw [projectAtoms] at hxm
    obtain ⟨a, ha, rfl⟩ := List.mem_map.mp hxm
    have hai : a.originalIndex = i := by simpa using hxi
    exact List.mem_map.mpr ⟨a, ha, hai⟩
  · intro him
    obtain ⟨a, ha, hai⟩ := List.mem_map.mp him
    refine ⟨⟨a, project3D s (a.x : ℝ) (a.y : ℝ) (a.z : ℝ)⟩, ?_, ?_⟩
    · rw [sortedAtoms]
      refine (List.mem_insertionSort depthLE).mpr ?_
      rw [projectAtoms]
      exact List.mem_map.mpr ⟨a, ha, rfl⟩
    · simpa using hai

/-- Rewriting a filterMap whose function is pointwise an if into a
filter. -/
theorem filterMap_if_eq_filter {α : Type} (p : α → Bool) (l : List α) :
    (l.filterMap (fun a => if p a then some a else none)) = l.filter p := by
  induction l with
  | nil => rfl
  | cons a l ih =>
    by_cases h : p a = true <;>
      simp [List.filterMap_cons, List.filter_cons, h, ih]

/-- The bonds drawn by a render pass, in draw order, are exactly the
scene's bond list restricted to bonds both of whose endpoints are
present, in scene order. -/
theorem render_filterMap_bondOf (s : ViewerState) :
    (render s).filterMap DrawCmd.bondOf =
      s.bonds.filter (fun b =>
        (s.atoms.map SceneAtom.originalIndex).contains b.fromIdx &&
        (s.atoms.map SceneAtom.originalIndex).contains b.toIdx) := by
  rw [render, List.filterMap_cons_none rfl, List.filterMap_append]
  have ha : ((sortedAtoms s).map DrawCmd.atomSphere).filterMap DrawCmd.bondOf = [] :=
    List.filterMap_eq_nil_iff.mpr (fun c hc => by
      obtain ⟨pa, -, rfl⟩ := List.mem_map.mp hc; rfl)
  rw [ha, List.append_nil, bondCmds, List.filterMap_filterMap,
    ← filterMap_if_eq_filter]
  refine List.filterMap_congr (fun b _ => ?_)
  have e1 := find?_sortedAtoms_isSome s b.fromIdx
  have e2 := find?_sortedAtoms_isSome s b.toIdx
  rcases hf : (sortedAtoms s).find? (fun a => a.atom.originalIndex == b.fromIdx)
    with _ | fa <;>
    rcases ht : (sortedAtoms s).find? (fun a => a.atom.originalIndex == b.toIdx)
      with _ | ta <;>
    rw [hf] at e1 <;> rw [ht] at e2 <;>
    simp only [Option.isSome_some, Option.isSome_none] at e1 e2 <;>
    rw [hf, ht, ← e1, ← e2] <;>
    simp [DrawCmd.bondOf]

/-- Stability of a single ordered insertion with respect to the depth
keys: the sublist at any fixed depth is unchanged. -/
theorem filter_depth_orderedInsert (d : ℝ) (a : ProjAtom) (l : List ProjAtom) :
    (l.orderedInsert depthLE a).filter (fun x => decide (depth x = d)) =
    ((a :: l).filter (fun x => decide (depth x = d))) := by
  induction l with
  | nil => rfl
  | cons b l ih =>
    by_cases hab : depthLE a b
    · rw [List.orderedInsert_of_le _ _ hab]
    · have hstep : (b :: l).orderedInsert depthLE a =
          b :: l.orderedInsert depthLE a := by
        simp [List.orderedInsert, hab]
      rw [hstep]
      have hlt : depth b < depth a := lt_of_not_le hab
      by_cases ha : depth a = d
      · have hb : ¬ depth b = d := by rw [← ha]; exact ne_of_lt hlt
        simp [List.filter_cons, ha, hb, ih]
      · simp [List.filter_cons, ha, ih]

/-- Stability of the render sort: for every depth value, the atoms at
that depth appear in the sorted list in their scene order. -/
theorem filter_depth_insertionSort (d : ℝ) (l : List ProjAtom) :
    (l.insertionSort depthLE).filter (fun x => decide (depth x = d)) =
    l.filter (fun x => decide (depth x = d)) := by
  induction l with
  | nil => rfl
  | cons a l ih =>
    rw [List.insertionSort, filter_depth_orderedInsert]
    simp [List.filter_cons, ih]

/-- C6: in every render pass the background comes first, then every
bond line, then every atom sphere; the drawn bonds are exactly the
scene's bonds with both endpoints present, in scene order (no depth
sorting of bonds); the drawn atoms are a permutation of the projected
scene atoms, sorted by ascending depth (smaller depth drawn first), and
the sort is stable: at every fixed depth the scene order is kept. -/
theorem render_draw_order (s : ViewerState) :
    (render s = DrawCmd.background ::
      ((render s).filter DrawCmd.isBond ++ (render s).filter DrawCmd.isAtom)) ∧
    ((render s).filterMap DrawCmd.bondOf =
      s.bonds.filter (fun b =>
        (s.atoms.map SceneAtom.originalIndex).contains b.fromIdx &&
        (s.atoms.map SceneAtom.originalIndex).contains b.toIdx)) ∧
    List.Sorted depthLE ((render s).filterMap DrawCmd.atomOf) ∧
    ((render s).filterMap DrawCmd.atomOf).Perm (projectAtoms s) ∧
    (∀ d : ℝ,
      ((render s).filterMap DrawCmd.atomOf).filter (fun x => decide (depth x = d)) =
      (projectAtoms s).filter (fun x => decide (depth x = d))) := by
  refine ⟨?_, render_filterMap_bondOf s, ?_, ?_, ?_⟩
  · rw [render_filter_isBond, render_filter_isAtom]; rfl
  · rw [render_filterMap_atomOf]; exact List.sorted_insertionSort depthLE _
  · rw [render_filterMap_atomOf]; exact List.perm_insertionSort depthLE _
  · intro d
    rw [render_filterMap_atomOf]
    exact filter_depth_insertionSort d _

end Simple3D
